import Mathlib

/-
Verification of the exonum/cryptocurrency demo service.

Shallow embedding conventions:
* `u64` values are `Nat`; arithmetic that the Rust source performs on `u64`
  without an overflow check is modelled with explicit wraparound `% U64`
  (release-mode two's-complement semantics of `+` / `-` on `u64`).
* The wallets `ProofMapIndex` is modelled as an association list in which
  `put` overwrites the first binding of the key (exonum's map semantics on
  a map that never holds duplicate keys) and `get` reads the first binding.
* Crypto-layer collaborators that live outside this repository (signature
  checking, Merkle roots, map proofs, the core blockchain schema) are
  modelled from the spec at their interface boundary; each such definition
  carries a doc comment starting with `Modelled from the spec:`.
* Fallible Rust code (`unwrap` on a lookup) is embedded in `Option`.
-/

namespace Cryptocurrency

/-- Modulus of the Rust `u64` type. -/
def U64 : Nat := 2 ^ 64

/-- Service identifier, `const SERVICE_ID: u16 = 1` in `main.rs`. -/
def SERVICE_ID : Nat := 1

/-- Initial balance of a newly created wallet,
`const INIT_BALANCE: u64 = 100` in `main.rs`. -/
def INIT_BALANCE : Nat := 100

/-- An exonum `PublicKey` is an opaque fixed-size (32-byte) identifier from
the crypto collaborator; the service only compares keys for equality, so it
is embedded as an abstract identifier with decidable equality. -/
structure PublicKey where
  val : Nat
deriving DecidableEq

/-- The `Wallet` record of `encoding_struct!` in `main.rs`:
`pub_key : &PublicKey`, `name : &str`, `balance : u64`. -/
structure Wallet where
  pub_key : PublicKey
  name : String
  balance : Nat
deriving DecidableEq

namespace Wallet

/-- `Wallet::increase` in `main.rs`: `balance + amount` on `u64`
(unchecked addition, hence wraparound mod `2^64`), re-packing the same
`pub_key` and `name` into a fresh record. -/
def increase (w : Wallet) (amount : Nat) : Wallet :=
  ⟨w.pub_key, w.name, (w.balance + amount) % U64⟩

/-- `Wallet::decrease` in `main.rs`: `balance - amount` on `u64`
(unchecked subtraction, hence wraparound mod `2^64`), re-packing the same
`pub_key` and `name`. -/
def decrease (w : Wallet) (amount : Nat) : Wallet :=
  ⟨w.pub_key, w.name, (w.balance + U64 - amount % U64) % U64⟩

end Wallet

/-- Contents of the wallets `ProofMapIndex` of `CurrencySchema`
(`main.rs`, namespace prefix `(SERVICE_ID, 0)`): an association list of
key/wallet bindings with no duplicate keys arising in use. -/
abbrev Ledger := List (PublicKey × Wallet)

/-- `ProofMapIndex::get`: the wallet bound to `k`, if any
(`CurrencySchema::wallet` in `main.rs`). -/
def get : Ledger → PublicKey → Option Wallet
  | [], _ => none
  | (k1, w1) :: t, k => if k1 = k then some w1 else get t k

/-- `ProofMapIndex::put`: bind `k` to `w`, overwriting an existing binding. -/
def put : Ledger → PublicKey → Wallet → Ledger
  | [], k, w => [(k, w)]
  | (k1, w1) :: t, k, w =>
    if k1 = k then (k, w) :: t else (k1, w1) :: put t k w

/-- Total ledger supply: the sum of all stored balances. -/
def supply : Ledger → Nat
  | [] => 0
  | (_, w) :: t => w.balance + supply t

/-- Balance bound to a key, `0` when the key is absent. -/
def balanceOf (l : Ledger) (k : PublicKey) : Nat :=
  match get l k with
  | some w => w.balance
  | none => 0

theorem get_put_self (l : Ledger) (k : PublicKey) (w : Wallet) :
    get (put l k w) k = some w := by
  induction l with
  | nil => simp [put, get]
  | cons hd t ih =>
    obtain ⟨k1, w1⟩ := hd
    by_cases h : k1 = k
    · subst h
      simp [put, get]
    · simp [put, get, h, ih]

theorem get_put_ne (l : Ledger) (k k2 : PublicKey) (w : Wallet)
    (h : k2 ≠ k) : get (put l k w) k2 = get l k2 := by
  induction l with
  | nil => simp [put, get, Ne.symm h]
  | cons hd t ih =>
    obtain ⟨k1, w1⟩ := hd
    by_cases h1 : k1 = k
    · subst h1
      simp [put, get, Ne.symm h]
    · simp only [put, if_neg h1, get, ih]

theorem supply_put_none (l : Ledger) (k : PublicKey) (w : Wallet)
    (h : get l k = none) : supply (put l k w) = supply l + w.balance := by
  induction l with
  | nil => simp [put, supply]
  | cons hd t ih =>
    obtain ⟨k1, w1⟩ := hd
    by_cases h1 : k1 = k
    · simp [get, h1] at h
    · simp only [get, if_neg h1] at h
      simp only [put, if_neg h1, supply, ih h]
      omega

theorem supply_put_some (l : Ledger) (k : PublicKey) (w w0 : Wallet)
    (h : get l k = some w0) :
    supply (put l k w) + w0.balance = supply l + w.balance := by
  induction l with
  | nil => simp [get] at h
  | cons hd t ih =>
    obtain ⟨k1, w1⟩ := hd
    by_cases h1 : k1 = k
    · simp only [get, if_pos h1] at h
      cases h
      simp only [put, if_pos h1, supply]
      omega
    · simp only [get, if_neg h1] at h
      simp only [put, if_neg h1, supply]
      have := ih h
      omega

/-- The `TxCreateWallet` transaction of `message!` in `main.rs`:
`pub_key : &PublicKey`, `name : &str`. -/
structure TxCreateWallet where
  pub_key : PublicKey
  name : String
deriving DecidableEq

/-- The `TxTransfer` transaction of `message!` in `main.rs`:
`from : &PublicKey`, `to : &PublicKey`, `amount : u64`, `seed : u64`.
The source fields `from` / `to` are spelt `from_key` / `to_key` because
`from` is a reserved word in Lean. -/
structure TxTransfer where
  from_key : PublicKey
  to_key : PublicKey
  amount : Nat
  seed : Nat
deriving DecidableEq

namespace TxCreateWallet

/-- `TxCreateWallet::verify` in `main.rs`: `self.verify_signature(self.pub_key())`.
The crypto collaborator's signature check is an input Boolean. -/
def verify (_tx : TxCreateWallet) (signature_valid : Bool) : Bool :=
  signature_valid

/-- `TxCreateWallet::execute` in `main.rs`: if no wallet is stored under
`pub_key`, put a fresh wallet with the transaction's name and
`INIT_BALANCE`; otherwise leave the ledger untouched (and raise no error). -/
def execute (tx : TxCreateWallet) (l : Ledger) : Ledger :=
  match get l tx.pub_key with
  | some _ => l
  | none => put l tx.pub_key ⟨tx.pub_key, tx.name, INIT_BALANCE⟩

end TxCreateWallet

namespace TxTransfer

/-- `TxTransfer::verify` in `main.rs`:
`(*self.from() != *self.to()) && self.verify_signature(self.from())`.
The crypto collaborator's signature check over `from` is an input Boolean. -/
def verify (tx : TxTransfer) (signature_valid : Bool) : Bool :=
  (tx.from_key != tx.to_key) && signature_valid

/-- `TxTransfer::execute` in `main.rs`: read both wallets from the same
view; if both are present and `sender.balance() >= amount`, write back
`sender.decrease(amount)` under `from` and then `receiver.increase(amount)`
under `to`; in every other case leave the ledger untouched. -/
def execute (tx : TxTransfer) (l : Ledger) : Ledger :=
  match get l tx.from_key, get l tx.to_key with
  | some sender, some receiver =>
    if sender.balance ≥ tx.amount then
      put (put l tx.from_key (sender.decrease tx.amount)) tx.to_key
        (receiver.increase tx.amount)
    else l
  | _, _ => l

end TxTransfer

/-- The closed set of transaction kinds of this service
(`tx_from_raw` in `main.rs` decodes exactly these two). -/
inductive Tx where
  | create (tx : TxCreateWallet)
  | transfer (tx : TxTransfer)
deriving DecidableEq

/-- Execution of one transaction of either kind. -/
def Tx.execute : Tx → Ledger → Ledger
  | Tx.create tx, l => tx.execute l
  | Tx.transfer tx, l => tx.execute l

/-- Sequential execution of a list of transactions (the per-block order the
ordering collaborator fixes). -/
def execTxs (txs : List Tx) (l : Ledger) : Ledger :=
  txs.foldl (fun acc tx => tx.execute acc) l

/-- Sequential execution of a list of Transfer transactions. -/
def execTransfers (txs : List TxTransfer) (l : Ledger) : Ledger :=
  txs.foldl (fun acc tx => tx.execute acc) l

/-- Ledger states reachable from the empty genesis ledger by executing
verified transactions: any `TxCreateWallet`, and any `TxTransfer` that
passed verification (distinct `from` / `to`; the signature check gates
execution but does not constrain the payload fields). -/
inductive Reachable : Ledger → Prop where
  | init : Reachable []
  | create (tx : TxCreateWallet) (l : Ledger) :
      Reachable l → Reachable (tx.execute l)
  | transfer (tx : TxTransfer) (l : Ledger) :
      Reachable l → tx.from_key ≠ tx.to_key → Reachable (tx.execute l)

theorem U64_eq : U64 = 18446744073709551616 := by norm_num [U64]

theorem U64_pos : 0 < U64 := by rw [U64_eq]; omega

@[simp] theorem Wallet.balance_increase (w : Wallet) (a : Nat) :
    (w.increase a).balance = (w.balance + a) % U64 := rfl

@[simp] theorem Wallet.balance_decrease (w : Wallet) (a : Nat) :
    (w.decrease a).balance = (w.balance + U64 - a % U64) % U64 := rfl

@[simp] theorem Wallet.pub_key_increase (w : Wallet) (a : Nat) :
    (w.increase a).pub_key = w.pub_key := rfl

@[simp] theorem Wallet.pub_key_decrease (w : Wallet) (a : Nat) :
    (w.decrease a).pub_key = w.pub_key := rfl

@[simp] theorem Wallet.name_increase (w : Wallet) (a : Nat) :
    (w.increase a).name = w.name := rfl

@[simp] theorem Wallet.name_decrease (w : Wallet) (a : Nat) :
    (w.decrease a).name = w.name := rfl

/-- Helper: one verified Transfer execution (distinct keys) preserves the
total supply modulo `2^64`. -/
theorem supply_transfer_modeq (tx : TxTransfer) (l : Ledger)
    (hne : tx.from_key ≠ tx.to_key) :
    supply (tx.execute l) % U64 = supply l % U64 := by
  rcases hf : get l tx.from_key with _ | s <;>
    rcases ht : get l tx.to_key with _ | r
  · simp [TxTransfer.execute, hf, ht]
  · simp [TxTransfer.execute, hf, ht]
  · simp [TxTransfer.execute, hf, ht]
  by_cases hba : s.balance ≥ tx.amount
  · simp only [TxTransfer.execute, hf, ht, if_pos hba]
    have hget1 : get (put l tx.from_key (s.decrease tx.amount)) tx.to_key
        = some r := by
      rw [get_put_ne _ _ _ _ (Ne.symm hne)]; exact ht
    have hl1 := supply_put_some l tx.from_key (s.decrease tx.amount) s hf
    have hl2 := supply_put_some (put l tx.from_key (s.decrease tx.amount))
      tx.to_key (r.increase tx.amount) r hget1
    simp only [Wallet.balance_increase, Wallet.balance_decrease] at hl1 hl2
    rw [U64_eq] at *
    omega
  · simp [TxTransfer.execute, hf, ht, hba]

/-- Projection of a wallet to the fields a Transfer never rewrites. -/
def entryId (w : Wallet) : PublicKey × String :=
  (w.pub_key, w.name)

def kA : PublicKey := ⟨0⟩

def kB : PublicKey := ⟨1⟩

def walletA : Wallet := ⟨kA, "alice", 100⟩

def walletB : Wallet := ⟨kB, "bob", 100⟩

/-- A two-account ledger, as produced by the spec scenario of creating
accounts for alice and bob. -/
def exAliceBob : Ledger := [(kA, walletA), (kB, walletB)]

def txAB : TxTransfer := ⟨kA, kB, 30, 0⟩

/-- C2 counterexample: the total supply over all accounts is not invariant
across every sequence of transactions of this service: the one-element
sequence holding a single `TxCreateWallet` raises the supply of the empty
ledger from 0 to 100 (`INIT_BALANCE` is minted for the new account). -/
theorem create_changes_total_supply :
    supply (execTxs [Tx.create ⟨⟨0⟩, "alice"⟩] []) ≠ supply ([] : Ledger) := by
  decide

/-- C2 (amended): a Transfer that actually moves funds between two distinct
existing accounts preserves the sum of the two balances exactly, provided
the sender's balance is a `u64` value and the receiver's balance plus the
amount does not overflow `u64` (the source adds with wraparound); and the
total supply is invariant modulo `2^64` under any sequence of Transfer
executions with distinct `from`/`to` keys (Transfers that were verified).
CreateAccount executions are excluded: they mint `INIT_BALANCE`. -/
theorem transfer_conservation :
    (∀ (tx : TxTransfer) (l : Ledger) (s r : Wallet),
      get l tx.from_key = some s → get l tx.to_key = some r →
      tx.from_key ≠ tx.to_key → tx.amount ≤ s.balance →
      s.balance < U64 → r.balance + tx.amount < U64 →
      balanceOf (tx.execute l) tx.from_key + balanceOf (tx.execute l) tx.to_key
        = balanceOf l tx.from_key + balanceOf l tx.to_key)
    ∧ ∀ (txs : List TxTransfer) (l : Ledger),
      (∀ tx ∈ txs, tx.from_key ≠ tx.to_key) →
      supply (execTransfers txs l) % U64 = supply l % U64 := by
  constructor
  · intro tx l s r hf ht hne hamt hs hr
    have hba : s.balance ≥ tx.amount := hamt
    simp only [TxTransfer.execute, hf, ht, if_pos hba]
    have h1 : get (put (put l tx.from_key (s.decrease tx.amount)) tx.to_key
        (r.increase tx.amount)) tx.to_key = some (r.increase tx.amount) :=
      get_put_self _ _ _
    have h2 : get (put (put l tx.from_key (s.decrease tx.amount)) tx.to_key
        (r.increase tx.amount)) tx.from_key = some (s.decrease tx.amount) := by
      rw [get_put_ne _ _ _ _ hne]; exact get_put_self _ _ _
    simp only [balanceOf, h1, h2, hf, ht, Wallet.balance_increase,
      Wallet.balance_decrease]
    rw [U64_eq] at *
    omega
  · intro txs
    induction txs with
    | nil => intro l _; rfl
    | cons hd tl ih =>
      intro l hgate
      have step := supply_transfer_modeq hd l (hgate hd (by simp))
      have rest := ih (hd.execute l) (fun tx htx => hgate tx (by simp [htx]))
      simp only [execTransfers, List.foldl_cons] at rest ⊢
      exact rest.trans step

/-- C2 witness: on the alice/bob ledger, transferring 30 preserves the sum
of the two balances, and the singleton Transfer sequence preserves the
supply modulo `2^64`. -/
theorem transfer_conservation_witness :
    (balanceOf (txAB.execute exAliceBob) txAB.from_key
        + balanceOf (txAB.execute exAliceBob) txAB.to_key
      = balanceOf exAliceBob txAB.from_key + balanceOf exAliceBob txAB.to_key)
    ∧ supply (execTransfers [txAB] exAliceBob) % U64
        = supply exAliceBob % U64 := by
  constructor
  · exact transfer_conservation.1 txAB exAliceBob walletA walletB (by decide)
      (by decide) (by decide) (by decide) (by decide) (by decide)
  · exact transfer_conservation.2 [txAB] exAliceBob (by decide)

/-- C3: every wallet stored in a reachable ledger state has a balance that
is a representable unsigned 64-bit integer (a `Nat` below `2^64`, in
particular non-negative); and a Transfer whose amount exceeds the sender's
stored balance leaves the whole ledger unchanged. -/
theorem no_negative_balances :
    (∀ l, Reachable l → ∀ k w, get l k = some w → w.balance < U64)
    ∧ ∀ (tx : TxTransfer) (l : Ledger) (w : Wallet),
      get l tx.from_key = some w → w.balance < tx.amount → tx.execute l = l := by
  constructor
  · intro l h
    induction h with
    | init => intro k w hk; simp [get] at hk
    | create tx l0 _ ih =>
      intro k w hk
      rcases hg : get l0 tx.pub_key with _ | w1
      · simp only [TxCreateWallet.execute, hg] at hk
        by_cases hkk : k = tx.pub_key
        · subst hkk
          rw [get_put_self] at hk
          cases hk
          show INIT_BALANCE < U64
          decide
        · rw [get_put_ne _ _ _ _ hkk] at hk
          exact ih k w hk
      · simp only [TxCreateWallet.execute, hg] at hk
        exact ih k w hk
    | transfer tx l0 _ hne ih =>
      intro k w hk
      rcases hf : get l0 tx.from_key with _ | s <;>
        rcases ht : get l0 tx.to_key with _ | r
      · simp only [TxTransfer.execute, hf, ht] at hk; exact ih k w hk
      · simp only [TxTransfer.execute, hf, ht] at hk; exact ih k w hk
      · simp only [TxTransfer.execute, hf, ht] at hk; exact ih k w hk
      by_cases hba : s.balance ≥ tx.amount
      · simp only [TxTransfer.execute, hf, ht, if_pos hba] at hk
        by_cases hkt : k = tx.to_key
        · subst hkt
          rw [get_put_self] at hk
          cases hk
          exact Nat.mod_lt _ U64_pos
        · rw [get_put_ne _ _ _ _ hkt] at hk
          by_cases hkf : k = tx.from_key
          · subst hkf
            rw [get_put_self] at hk
            cases hk
            exact Nat.mod_lt _ U64_pos
          · rw [get_put_ne _ _ _ _ hkf] at hk
            exact ih k w hk
      · simp only [TxTransfer.execute, hf, ht, if_neg hba] at hk
        exact ih k w hk
  · intro tx l w hf hlt
    rcases ht : get l tx.to_key with _ | r
    · simp [TxTransfer.execute, hf, ht]
    · have hba : ¬ w.balance ≥ tx.amount := by omega
      simp [TxTransfer.execute, hf, ht, hba]

/-- C3 witness: the single-account ledger reached by one CreateAccount has
a `u64`-representable balance, and an insufficient-funds Transfer on the
alice/bob ledger is a no-op. -/
theorem no_negative_balances_witness :
    ((⟨⟨0⟩, "alice", 100⟩ : Wallet).balance < U64)
    ∧ TxTransfer.execute ⟨kA, kB, 1000, 0⟩ exAliceBob = exAliceBob := by
  constructor
  · exact no_negative_balances.1 (TxCreateWallet.execute ⟨⟨0⟩, "alice"⟩ [])
      (Reachable.create ⟨⟨0⟩, "alice"⟩ [] Reachable.init) ⟨0⟩
      ⟨⟨0⟩, "alice", 100⟩ (by decide)
  · exact no_negative_balances.2 ⟨kA, kB, 1000, 0⟩ exAliceBob walletA
      (by decide) (by decide)

/-- C4: executing the same CreateAccount twice gives exactly the ledger of
the first execution — the second execution sees the wallet present and is a
silent no-op (execution is a total function, so no error is raised). -/
theorem create_wallet_idempotent :
    ∀ (tx : TxCreateWallet) (l : Ledger),
      tx.execute (tx.execute l) = tx.execute l := by
  intro tx l
  rcases hg : get l tx.pub_key with _ | w1
  · simp [TxCreateWallet.execute, hg, get_put_self]
  · simp [TxCreateWallet.execute, hg]

/-- C5: a Transfer with `from == to` never passes verification, whatever
the amount, the seed (nonce) and the signature-check outcome. -/
theorem self_transfer_rejected :
    ∀ (tx : TxTransfer) (signature_valid : Bool),
      tx.from_key = tx.to_key → tx.verify signature_valid = false := by
  intro tx sig h
  simp [TxTransfer.verify, h]

/-- C5 witness: a concrete self-transfer fails verification even with a
valid signature. -/
theorem self_transfer_rejected_witness :
    TxTransfer.verify ⟨⟨3⟩, ⟨3⟩, 5, 7⟩ true = false :=
  self_transfer_rejected ⟨⟨3⟩, ⟨3⟩, 5, 7⟩ true rfl

/-- C6: a Transfer whose sender or receiver account is missing leaves the
whole ledger state unchanged (and raises no error: execution is total). -/
theorem transfer_missing_account_noop :
    ∀ (tx : TxTransfer) (l : Ledger),
      get l tx.from_key = none ∨ get l tx.to_key = none →
      tx.execute l = l := by
  intro tx l h
  rcases hf : get l tx.from_key with _ | s <;>
    rcases ht : get l tx.to_key with _ | r
  · simp [TxTransfer.execute, hf, ht]
  · simp [TxTransfer.execute, hf, ht]
  · simp [TxTransfer.execute, hf, ht]
  · rcases h with h | h
    · rw [hf] at h; cases h
    · rw [ht] at h; cases h

/-- C6 witness: a Transfer from an unknown key on the alice/bob ledger is a
no-op. -/
theorem transfer_missing_account_noop_witness :
    TxTransfer.execute ⟨⟨5⟩, kB, 10, 0⟩ exAliceBob = exAliceBob :=
  transfer_missing_account_noop ⟨⟨5⟩, kB, 10, 0⟩ exAliceBob
    (Or.inl (by decide))

/-- C9: a CreateAccount executed against a ledger with no account for its
key inserts exactly one account: under the key it stores a wallet holding
the transaction's key and name and balance `INIT_BALANCE = 100`, and every
other key keeps its previous binding. -/
theorem create_wallet_inserts_init_balance :
    ∀ (tx : TxCreateWallet) (l : Ledger),
      get l tx.pub_key = none →
      get (tx.execute l) tx.pub_key = some ⟨tx.pub_key, tx.name, INIT_BALANCE⟩
      ∧ ∀ k, k ≠ tx.pub_key → get (tx.execute l) k = get l k := by
  intro tx l h
  constructor
  · simp [TxCreateWallet.execute, h, get_put_self]
  · intro k hk
    simp only [TxCreateWallet.execute, h]
    exact get_put_ne _ _ _ _ hk

/-- C9 witness: creating carol on the alice/bob ledger stores a fresh
wallet with balance 100 and leaves alice's binding untouched. -/
theorem create_wallet_inserts_init_balance_witness :
    (get (TxCreateWallet.execute ⟨⟨2⟩, "carol"⟩ exAliceBob) ⟨2⟩
      = some ⟨⟨2⟩, "carol", INIT_BALANCE⟩)
    ∧ get (TxCreateWallet.execute ⟨⟨2⟩, "carol"⟩ exAliceBob) kA
      = get exAliceBob kA := by
  constructor
  · exact (create_wallet_inserts_init_balance ⟨⟨2⟩, "carol"⟩ exAliceBob
      (by decide)).1
  · exact (create_wallet_inserts_init_balance ⟨⟨2⟩, "carol"⟩ exAliceBob
      (by decide)).2 kA (by decide)

/-- C10: a Transfer execution can change the bindings of its `from` and
`to` keys only — every other key keeps its exact previous binding — and it
never rewrites the `pub_key` or `name` field of any stored wallet: the
key/name projection of every binding is preserved. -/
theorem transfer_frame :
    ∀ (tx : TxTransfer) (l : Ledger),
      (∀ k, k ≠ tx.from_key → k ≠ tx.to_key → get (tx.execute l) k = get l k)
      ∧ ∀ k, (get (tx.execute l) k).map entryId = (get l k).map entryId := by
  intro tx l
  have hcases : ∀ k, get (tx.execute l) k = get l k
      ∨ (k = tx.to_key ∧ ∃ r, get l k = some r
          ∧ get (tx.execute l) k = some (r.increase tx.amount))
      ∨ (k = tx.from_key ∧ k ≠ tx.to_key ∧ ∃ s, get l k = some s
          ∧ get (tx.execute l) k = some (s.decrease tx.amount)) := by
    intro k
    rcases hf : get l tx.from_key with _ | s <;>
      rcases ht : get l tx.to_key with _ | r
    · simp [TxTransfer.execute, hf, ht]
    · simp [TxTransfer.execute, hf, ht]
    · simp [TxTransfer.execute, hf, ht]
    by_cases hba : s.balance ≥ tx.amount
    · simp only [TxTransfer.execute, hf, ht, if_pos hba]
      by_cases hkt : k = tx.to_key
      · subst hkt
        right; left
        exact ⟨rfl, r, ht, get_put_self _ _ _⟩
      · rw [get_put_ne _ _ _ _ hkt]
        by_cases hkf : k = tx.from_key
        · subst hkf
          right; right
          exact ⟨rfl, hkt, s, hf, get_put_self _ _ _⟩
        · left
          exact get_put_ne _ _ _ _ hkf
    · simp [TxTransfer.execute, hf, ht, hba]
  constructor
  · intro k hkf hkt
    rcases hcases k with h | ⟨hk, _⟩ | ⟨hk, _⟩
    · exact h
    · exact absurd hk hkt
    · exact absurd hk hkf
  · intro k
    rcases hcases k with h | ⟨_, r, hr, he⟩ | ⟨_, _, s, hs, he⟩
    · rw [h]
    · rw [he, hr]
      simp [entryId]
    · rw [he, hs]
      simp [entryId]

/-- C10 witness: the alice-to-bob transfer leaves an unrelated key's
binding unchanged and preserves the key/name projection of bob's entry. -/
theorem transfer_frame_witness :
    (get (txAB.execute exAliceBob) ⟨2⟩ = get exAliceBob ⟨2⟩)
    ∧ (get (txAB.execute exAliceBob) kB).map entryId
      = (get exAliceBob kB).map entryId := by
  constructor
  · exact (transfer_frame txAB exAliceBob).1 ⟨2⟩ (by decide) (by decide)
  · exact (transfer_frame txAB exAliceBob).2 kB

abbrev Hash := Nat

/-- Modelled from the spec: an executable stand-in for the hash of one
wallet binding, feeding the authenticated table's root; the collaborator
storage engine that computes real Merkle hashes is outside this
repository. -/
def walletCode (w : Wallet) : Nat :=
  Nat.pair (Nat.pair w.pub_key.val w.name.length) w.balance

/-- Modelled from the spec: the collaborator's `root_hash` of the wallets
table (`ProofMapIndex::root_hash`, the sole entry of
`CurrencySchema::state_hash`), an executable function of the table
contents. -/
def tableRoot : Ledger → Hash
  | [] => 0
  | (k, w) :: t => Nat.pair (Nat.pair k.val (walletCode w)) (tableRoot t) + 1

/-- Modelled from the spec: the block's aggregate state commitment — the
ordered collection of per-table root hashes certified by a block header;
this service contributes exactly one entry, keyed by
`(SERVICE_ID, table 0)`. -/
def aggStateRoot (l : Ledger) : Hash :=
  Nat.pair (Nat.pair SERVICE_ID 0) (tableRoot l)

/-- The `MapProof<Wallet>` of `api.rs`, at its interface boundary: the
structural content the claims need is the table root hash the proof is
verifiable against (its implied root). -/
structure MapProofW where
  impliedRoot : Hash
deriving DecidableEq

/-- Modelled from the spec: `ProofMapIndex::get_proof` of the storage
collaborator — a presence-or-absence proof for the key, verifiable against
the root hash of the table it was generated from. -/
def getProof (l : Ledger) (_key : PublicKey) : MapProofW :=
  ⟨tableRoot l⟩

/-- `StateTableKey` of `api.rs`: `service_id : u16`, `table_id : usize`. -/
structure StateTableKey where
  service_id : Nat
  table_id : Nat
deriving DecidableEq

/-- `MapView<K, V>` of `api.rs` at `K = PublicKey`, `V = Wallet`: a map
proof plus the matching key/value entries (`KeyValuePair` is embedded as a
pair). -/
structure MapView where
  proof : MapProofW
  entries : List (PublicKey × Wallet)
deriving DecidableEq

/-- `MapView::new` in `api.rs`: read `table.get(&key)`, attach
`table.get_proof(&key)`, and list the single entry when the value is
present, no entry when it is absent. -/
def MapView.new (l : Ledger) (key : PublicKey) : MapView :=
  let val := get l key
  ⟨getProof l key,
    match val with
    | some v => [(key, v)]
    | none => []⟩

/-- The `MapProof<Hash>` of `api.rs` (proof into the aggregate state map),
at its interface boundary: it certifies a table-root value for the
requested table key and is verifiable against an implied aggregate root. -/
structure StateMapProof where
  tableValue : Hash
  impliedAggRoot : Hash
deriving DecidableEq

/-- An exonum block header with the fields `BlockWithState`'s serializer
exposes, plus the certified aggregate state hash. -/
structure Block where
  height : Nat
  prev_hash : Hash
  schema_version : Nat
  proposer_id : Nat
  tx_count : Nat
  tx_hash : Hash
  state_hash : Hash
deriving DecidableEq

/-- Modelled from the spec: an executable stand-in for the hash of a block
header. -/
def blockHash (b : Block) : Hash :=
  Nat.pair b.height (Nat.pair b.prev_hash (Nat.pair b.schema_version
    (Nat.pair b.proposer_id (Nat.pair b.tx_count
      (Nat.pair b.tx_hash b.state_hash)))))

/-- A precommit of the quorum certificate, at its interface boundary: a
signed endorsement of a specific block hash. -/
structure Precommit where
  block_hash : Hash
deriving DecidableEq

/-- A committed block together with the precommits that authorized it
(what `Schema::block_and_precommits` returns). -/
structure BlockProof where
  block : Block
  precommits : List Precommit
deriving DecidableEq

/-- A committed snapshot at the interface granularity the composer reads:
the wallets table contents and the committed block chain
(`block_hashes_by_height` / `block_and_precommits` of the core schema). -/
structure Snapshot where
  ledger : Ledger
  chain : List BlockProof
deriving DecidableEq

/-- Modelled from the spec: `Schema::get_proof_to_service_table` of the
core collaborator — the proof that the state-commitment entry of
`(service_id, table_id)` is included in the snapshot's aggregate state
commitment; this service exposes exactly one table, at
`(SERVICE_ID, 0)`, the pair the composer passes. -/
def getProofToServiceTable (s : Snapshot) (_service_id _table_id : Nat) :
    StateMapProof :=
  ⟨tableRoot s.ledger, aggStateRoot s.ledger⟩

/-- Modelled from the spec: well-formedness of a committed snapshot — at
least one block is committed, the newest block header certifies the
snapshot's aggregate state commitment, and its precommits endorse that
header. -/
def WFb (s : Snapshot) : Bool :=
  match s.chain[s.chain.length - 1]? with
  | none => false
  | some bp =>
    (bp.block.state_hash == aggStateRoot s.ledger)
      && bp.precommits.all fun pc => pc.block_hash == blockHash bp.block

/-- Propositional form of snapshot well-formedness. -/
def WF (s : Snapshot) : Prop :=
  WFb s = true

instance (s : Snapshot) : Decidable (WF s) :=
  inferInstanceAs (Decidable (WFb s = true))

/-- `StateView` of `api.rs` at `T = MapView`. -/
structure StateView where
  proof : StateMapProof
  entries : List (StateTableKey × MapView)
deriving DecidableEq

/-- `BlockWithState` of `api.rs`: block header, quorum certificate and the
two inner proof layers. -/
structure BlockWithState where
  block : Block
  precommits : List Precommit
  state : StateView
deriving DecidableEq

/-- `BlockWithState::new` in `api.rs`:
`max_height = block_hashes_by_height().len() - 1` (a `usize` subtraction
that underflows on an empty chain, after which the
`block_and_precommits(..).unwrap()` fails — both the underflowed lookup
and the unwrap of a missing block are embedded as the `none` branch), then
the block proof fetch, the state-commitment proof, and the assembled
bundle. -/
def BlockWithState.new (s : Snapshot) (service_id table_id : Nat)
    (table_view : MapView) : Option BlockWithState :=
  let table_key : StateTableKey := ⟨service_id, table_id⟩
  let max_height := s.chain.length - 1
  match s.chain[max_height]? with
  | none => none
  | some block_proof =>
    some ⟨block_proof.block, block_proof.precommits,
      ⟨getProofToServiceTable s service_id table_id,
       [(table_key, table_view)]⟩⟩

/-- `CryptocurrencyApi::get_wallet_view` in `main.rs`: take a snapshot,
open the schema's wallets table and build the `MapView` for the key. -/
def get_wallet_view (s : Snapshot) (pub_key : PublicKey) : MapView :=
  MapView.new s.ledger pub_key

/-- The `wallet_info` handler in `main.rs` (after hex decoding): it calls
`self_.blockchain.snapshot()` twice — once inside `get_wallet_view`, and
once more as the first argument of `BlockWithState::new`. The two
parameters are the results of those two calls, in order; on a quiescent
node they coincide, but a block commit may interleave them (spec section
5 allows snapshots concurrent with block production). -/
def wallet_info (s1 s2 : Snapshot) (pub_key : PublicKey) :
    Option BlockWithState :=
  let wallet_view := get_wallet_view s1 pub_key
  BlockWithState.new s2 SERVICE_ID 0 wallet_view

/-- Structural consistency of a proof bundle, as the spec states it: a
single embedded table entry whose map proof's implied root equals the
table-root value certified by the state-commitment proof, whose implied
aggregate root is the value the block header certifies and binds the
table key `(SERVICE_ID, 0)` to that table root, with every bundled
precommit endorsing the block header. -/
def bundleConsistent (resp : BlockWithState) : Bool :=
  match resp.state.entries with
  | [(_, mv)] =>
    (mv.proof.impliedRoot == resp.state.proof.tableValue)
      && (resp.state.proof.impliedAggRoot == resp.block.state_hash)
      && (resp.state.proof.impliedAggRoot
          == Nat.pair (Nat.pair SERVICE_ID 0) resp.state.proof.tableValue)
      && resp.precommits.all fun pc => pc.block_hash == blockHash resp.block
  | _ => false

/-- Helper: with at least one committed block, `BlockWithState::new`
returns the bundle assembled from the newest block proof. -/
theorem new_eq_of_chain_ne (s : Snapshot) (service_id table_id : Nat)
    (v : MapView) (hne : s.chain ≠ []) :
    ∃ bp, s.chain[s.chain.length - 1]? = some bp
      ∧ BlockWithState.new s service_id table_id v
        = some ⟨bp.block, bp.precommits,
            ⟨getProofToServiceTable s service_id table_id,
             [(⟨service_id, table_id⟩, v)]⟩⟩ := by
  have hlt : s.chain.length - 1 < s.chain.length := by
    have : 0 < s.chain.length := List.length_pos.mpr hne
    omega
  have hsome : s.chain[s.chain.length - 1]?
      = some (s.chain[s.chain.length - 1]) :=
    List.getElem?_eq_getElem hlt
  exact ⟨s.chain[s.chain.length - 1], hsome, by
    simp [BlockWithState.new, hsome]⟩

/-- Helper: a well-formed snapshot has a nonempty chain. -/
theorem WF_chain_ne (s : Snapshot) (h : WF s) : s.chain ≠ [] := by
  intro heq
  unfold WF WFb at h
  rw [heq] at h
  simp at h

/-- Helper: what well-formedness says about the newest block proof. -/
theorem WF_last (s : Snapshot) (h : WF s) (bp : BlockProof)
    (hbp : s.chain[s.chain.length - 1]? = some bp) :
    bp.block.state_hash = aggStateRoot s.ledger
    ∧ ∀ pc ∈ bp.precommits, pc.block_hash = blockHash bp.block := by
  unfold WF WFb at h
  rw [hbp] at h
  simp only [Bool.and_eq_true, beq_iff_eq, List.all_eq_true] at h
  exact ⟨h.1, fun pc hpc => h.2 pc hpc⟩

/-- A properly committed block proof over ledger `l` at height `h`: the
header certifies `l`'s aggregate state commitment and the precommit
endorses the header. -/
def bpFor (l : Ledger) (h : Nat) : BlockProof :=
  ⟨⟨h, 0, 0, 0, 0, 0, aggStateRoot l⟩,
   [⟨blockHash ⟨h, 0, 0, 0, 0, 0, aggStateRoot l⟩⟩]⟩

/-- The committed snapshot right after genesis: empty ledger, one block. -/
def exS1 : Snapshot := ⟨[], [bpFor [] 0]⟩

def exLedger : Ledger := [(kA, walletA)]

/-- The committed snapshot after a block that created alice's wallet. -/
def exS2 : Snapshot := ⟨exLedger, [bpFor [] 0, bpFor exLedger 1]⟩

/-- C1 counterexample: the two `blockchain.snapshot()` calls inside
`wallet_info` need not observe the same committed state; when a commit
interleaves them (first call before, second after), the handler succeeds
but returns a bundle whose map proof is rooted in the older table while
the state-commitment proof and block header certify the newer one, so the
implied map root differs from the root the state proof references. Both
snapshots are well-formed committed states. -/
theorem proof_bundle_two_snapshots_inconsistent :
    WF exS1 ∧ WF exS2
    ∧ (wallet_info exS1 exS2 kA).map bundleConsistent = some false := by
  refine ⟨by decide, by decide, by decide⟩

/-- C1 (amended): provided the two snapshot acquisitions of `wallet_info`
observe one and the same well-formed committed snapshot, every bundle the
handler returns is structurally consistent: it embeds exactly one state
entry, keyed by the `(SERVICE_ID, 0)` pair the map proof was generated
against, the map proof's implied root equals the table root certified by
the state-commitment proof, that proof's implied aggregate root is
exactly the aggregate commitment binding this table key to this table
root, it equals the value certified by the block header, and every
bundled precommit endorses that header. -/
theorem proof_bundle_consistent_single_snapshot :
    ∀ (s : Snapshot) (k : PublicKey), WF s →
      ∀ resp, wallet_info s s k = some resp →
        resp.state.entries = [(⟨SERVICE_ID, 0⟩, MapView.new s.ledger k)]
        ∧ (∀ tk mv, resp.state.entries = [(tk, mv)] →
            tk = ⟨SERVICE_ID, 0⟩
            ∧ mv.proof.impliedRoot = resp.state.proof.tableValue)
        ∧ resp.state.proof.impliedAggRoot = resp.block.state_hash
        ∧ resp.state.proof.impliedAggRoot
            = Nat.pair (Nat.pair SERVICE_ID 0) resp.state.proof.tableValue
        ∧ ∀ pc ∈ resp.precommits, pc.block_hash = blockHash resp.block := by
  intro s k hwf resp hresp
  obtain ⟨bp, hbp, hnew⟩ :=
    new_eq_of_chain_ne s SERVICE_ID 0 (get_wallet_view s k) (WF_chain_ne s hwf)
  unfold wallet_info at hresp
  rw [hnew] at hresp
  cases hresp
  obtain ⟨hstate, hpcs⟩ := WF_last s hwf bp hbp
  refine ⟨rfl, ?_, ?_, rfl, hpcs⟩
  · intro tk mv hent
    rw [List.cons_eq_cons] at hent
    obtain ⟨hpair, _⟩ := hent
    cases hpair
    exact ⟨rfl, rfl⟩
  · exact hstate.symm

/-- The bundle the single-snapshot handler run returns on `exS2`. -/
def exResp : BlockWithState :=
  ⟨(bpFor exLedger 1).block, (bpFor exLedger 1).precommits,
   ⟨getProofToServiceTable exS2 SERVICE_ID 0,
    [(⟨SERVICE_ID, 0⟩, MapView.new exLedger kA)]⟩⟩

/-- C1 witness: on the concrete post-commit snapshot, the single-snapshot
handler run returns the bundle `exResp`, whose state proof's implied
aggregate root is the value the block header certifies and whose embedded
state entry is keyed by `(SERVICE_ID, 0)`. -/
theorem proof_bundle_consistent_single_snapshot_witness :
    exResp.state.proof.impliedAggRoot = exResp.block.state_hash
    ∧ exResp.state.entries = [(⟨SERVICE_ID, 0⟩, MapView.new exS2.ledger kA)] := by
  have h := proof_bundle_consistent_single_snapshot exS2 kA (by decide)
    exResp (by decide)
  exact ⟨h.2.2.1, h.1⟩

/-- C7: for an absent key `MapView::new` yields an empty entries list while
still attaching the map (absence) proof of the table; for a present key it
yields exactly the one entry pairing the key with its stored wallet; and
the query handler answers successfully (returns a bundle, not an error)
whenever at least one block has been committed. -/
theorem absence_proof_empty_entries :
    (∀ (l : Ledger) (k : PublicKey),
      (get l k = none →
        (MapView.new l k).entries = [] ∧ (MapView.new l k).proof = getProof l k)
      ∧ ∀ w, get l k = some w → (MapView.new l k).entries = [(k, w)])
    ∧ ∀ (s : Snapshot) (k : PublicKey), s.chain ≠ [] →
        (wallet_info s s k).isSome = true := by
  constructor
  · intro l k
    constructor
    · intro h
      constructor <;> simp [MapView.new, h]
    · intro w h
      simp [MapView.new, h]
  · intro s k hne
    obtain ⟨bp, _, hnew⟩ :=
      new_eq_of_chain_ne s SERVICE_ID 0 (get_wallet_view s k) hne
    unfold wallet_info
    rw [hnew]
    rfl

/-- C7 witness: querying the never-created key `⟨9⟩` on the post-commit
snapshot gives an empty entries list with the table's absence proof
attached, a present key gives its single entry, and the handler answers
with a bundle. -/
theorem absence_proof_empty_entries_witness :
    ((MapView.new exLedger ⟨9⟩).entries = []
      ∧ (MapView.new exLedger ⟨9⟩).proof = getProof exLedger ⟨9⟩)
    ∧ (MapView.new exLedger kA).entries = [(kA, walletA)]
    ∧ (wallet_info exS2 exS2 ⟨9⟩).isSome = true := by
  refine ⟨(absence_proof_empty_entries.1 exLedger ⟨9⟩).1 (by decide),
    (absence_proof_empty_entries.1 exLedger kA).2 walletA (by decide),
    absence_proof_empty_entries.2 exS2 ⟨9⟩ (by decide)⟩

/-- C8: proof composition reads the highest committed height
`len - 1` from the snapshot's block index; once at least one block is
committed the block-and-precommits fetch succeeds and the bundle is built
from that newest block proof (the unwrap-failure branch is unreachable),
while on a chain with no blocks composition fails. -/
theorem block_with_state_requires_block :
    ∀ (s : Snapshot) (service_id table_id : Nat) (v : MapView),
      (s.chain ≠ [] →
        ∃ bp, s.chain[s.chain.length - 1]? = some bp
          ∧ BlockWithState.new s service_id table_id v
            = some ⟨bp.block, bp.precommits,
                ⟨getProofToServiceTable s service_id table_id,
                 [(⟨service_id, table_id⟩, v)]⟩⟩)
      ∧ (s.chain = [] →
          BlockWithState.new s service_id table_id v = none) := by
  intro s sid tid v
  constructor
  · intro hne
    exact new_eq_of_chain_ne s sid tid v hne
  · intro he
    simp [BlockWithState.new, he]

/-- C8 witness: composition succeeds on the committed concrete snapshot
and fails on a snapshot with no committed block. -/
theorem block_with_state_requires_block_witness :
    (BlockWithState.new exS2 SERVICE_ID 0 (MapView.new exLedger kA)).isSome
      = true
    ∧ BlockWithState.new ⟨exLedger, []⟩ SERVICE_ID 0
        (MapView.new exLedger kA) = none := by
  constructor
  · obtain ⟨bp, _, hnew⟩ := (block_with_state_requires_block exS2 SERVICE_ID 0
      (MapView.new exLedger kA)).1 (by decide)
    rw [hnew]
    rfl
  · exact (block_with_state_requires_block ⟨exLedger, []⟩ SERVICE_ID 0
      (MapView.new exLedger kA)).2 rfl

end Cryptocurrency
